import Mathlib

/-!
Verification development for the PhishSense detection engine
(`phishing_detector.py`).  The Python code is shallowly embedded here:
text is modelled as a list of Unicode code points (`PyStr := List Nat`),
pure functions of the source become Lean functions, float arithmetic of
the risk calculator is idealised over the real numbers, and the one
code path that can raise an uncaught exception (a `KeyError` in the URL
aggregation loop of `extract_features`) is modelled with `Option`.
Character class predicates (`str.lower`, `str.isdigit`, whitespace, …)
are modelled on the ASCII range, which covers every string handled in
this development; the Python originals extend them to further Unicode
ranges in ways none of the verified properties depend on.
-/

set_option maxHeartbeats 1000000
set_option maxRecDepth 100000

namespace PhishSense

/-- Python strings are sequences of code points; we model them as lists
of naturals. -/
abbrev PyStr := List Nat

/-- Code points of a Lean string literal, used to write concrete inputs. -/
def ofStr (s : String) : PyStr := s.data.map Char.toNat

/-- Whitespace test modelling both `str.strip` / `str.split` whitespace
and the regex class `\s` (ASCII part: tab through carriage return,
the separator controls 28–31, and the space character). -/
def isWsPy (c : Nat) : Bool :=
  (9 ≤ c && c ≤ 13) || (28 ≤ c && c ≤ 31) || c == 32

/-- ASCII model of `str.isdigit`. -/
def isDigitPy (c : Nat) : Bool := 48 ≤ c && c ≤ 57

/-- ASCII model of `str.isalpha`. -/
def isAlphaPy (c : Nat) : Bool := (65 ≤ c && c ≤ 90) || (97 ≤ c && c ≤ 122)

/-- ASCII model of `str.isupper` on a single character. -/
def isUpperPy (c : Nat) : Bool := 65 ≤ c && c ≤ 90

/-- ASCII model of `str.lower` on a single code point. -/
def pyLower (c : Nat) : Nat := if 65 ≤ c ∧ c ≤ 90 then c + 32 else c

/-- Lowercasing a whole string (`str.lower`). -/
def lowerStr (t : PyStr) : PyStr := t.map pyLower

/-- Membership of a code point in the regex class `[!?.]` used by the
punctuation-collapsing substitution of `preprocess_text`. -/
def isPunct3 (c : Nat) : Bool := c == 33 || c == 63 || c == 46

/-- Code points of Python's `string.punctuation` (the 32 ASCII
punctuation characters), used for `special_char_ratio`. -/
def isAsciiPunct (c : Nat) : Bool :=
  (33 ≤ c && c ≤ 47) || (58 ≤ c && c ≤ 64) || (91 ≤ c && c ≤ 96) ||
    (123 ≤ c && c ≤ 126)

/-- Model of `str.strip()` with no argument: remove leading and
trailing whitespace. -/
def pyStrip (l : PyStr) : PyStr := (l.dropWhile isWsPy).rdropWhile isWsPy

/-- Streaming form of whitespace collapsing: the flag records whether
the previous character was whitespace (already emitted as one space),
so the first character of every whitespace run is emitted as a space
and the rest of the run is dropped. -/
def wsCollapseAux : Bool → PyStr → PyStr
  | _, [] => []
  | pw, c :: rest =>
    if isWsPy c then
      if pw then wsCollapseAux true rest else 32 :: wsCollapseAux true rest
    else c :: wsCollapseAux false rest

/-- Model of `re.sub(r'\s+', ' ', text)`: every maximal whitespace run
is replaced by a single space. -/
def wsCollapse (t : PyStr) : PyStr := wsCollapseAux false t

/-- Value of a hexadecimal digit, used by percent-decoding. -/
def hexVal (c : Nat) : Option Nat :=
  if 48 ≤ c ∧ c ≤ 57 then some (c - 48)
  else if 97 ≤ c ∧ c ≤ 102 then some (c - 97 + 10)
  else if 65 ≤ c ∧ c ≤ 70 then some (c - 65 + 10)
  else none

/-- Model of `urllib.parse.unquote`: a percent sign followed by two hex
digits is decoded to the corresponding code point, any other character
is copied unchanged (best effort, never fails).  This models the
single-byte fragment of `unquote`; the Python original additionally
reassembles consecutive high bytes as UTF-8, which no ASCII input ever
triggers. -/
def unquotePy : PyStr → PyStr
  | [] => []
  | c :: a :: b :: rest =>
    if c = 37 then
      match hexVal a, hexVal b with
      | some hi, some lo => (16 * hi + lo) :: unquotePy rest
      | _, _ => 37 :: unquotePy (a :: b :: rest)
    else c :: unquotePy (a :: b :: rest)
  | c :: rest => c :: unquotePy rest

/-- Model of `re.sub(r'([!?.]){2,}', r'\1', text)`: every maximal run
of characters from `[!?.]` is replaced by the last character of the
run (the backreference `\1` holds the final repetition of the group).
Streaming form: a class character is dropped exactly when the next
character is also a class character, so only the last character of
each maximal run survives, and runs of length one are kept as the
original leaves them. -/
def punctCollapse : PyStr → PyStr
  | [] => []
  | [c] => [c]
  | a :: b :: rest =>
    if isPunct3 a && isPunct3 b then punctCollapse (b :: rest)
    else a :: punctCollapse (b :: rest)

/-- Model of `preprocess_text`: lowercase and strip, collapse
whitespace runs, percent-decode, collapse repeated punctuation. -/
def preprocessText (t : PyStr) : PyStr :=
  if t = [] then []
  else punctCollapse (unquotePy (wsCollapse (pyStrip (lowerStr t))))

/-- Boolean prefix test on code point lists (needle, then haystack). -/
def startsWithL : PyStr → PyStr → Bool
  | [], _ => true
  | _ :: _, [] => false
  | a :: as, b :: bs => a == b && startsWithL as bs

/-- Boolean substring test, modelling Python's `needle in haystack`. -/
def containsSub (n : PyStr) : PyStr → Bool
  | [] => startsWithL n []
  | c :: rest => startsWithL n (c :: rest) || containsSub n rest

/-- Boolean suffix test, modelling `str.endswith`. -/
def endsWithL (n h : PyStr) : Bool := startsWithL n.reverse h.reverse

/-- Code points of the character set `.,;:()[]{}"'` that `extract_urls`
strips from each regex match. -/
def stripCodes : List Nat := [46, 44, 59, 58, 40, 41, 91, 93, 123, 125, 34, 39]

/-- Membership in the strip set of `extract_urls`. -/
def isStripCh (c : Nat) : Bool := stripCodes.contains c

/-- Model of `url.strip('.,;:()[]{}"\'')`: Python `str.strip(chars)`
removes the characters from both ends of the string. -/
def stripUrlPunct (l : PyStr) : PyStr :=
  (l.dropWhile isStripCh).rdropWhile isStripCh

/-- Literal prefixes of the alternatives of the URL regex
`(https?://\S+|www\.\S+|bit\.ly/\S+|tinyurl\.com/\S+|goo\.gl/\S+)`. -/
def urlPrefixes : List PyStr :=
  [ofStr (r"https://"), ofStr (r"http://"), ofStr (r"www."),
   ofStr (r"bit.ly/"), ofStr (r"tinyurl.com/"), ofStr (r"goo.gl/")]

/-- Whether one alternative of the URL regex matches at the current
position: some literal prefix matches and at least one further
non-whitespace character follows it (the `\S+` part). -/
def urlMatchAt (l : PyStr) : Bool :=
  urlPrefixes.any fun p =>
    startsWithL p l && decide (p.length < (l.takeWhile (fun c => !isWsPy c)).length)

/-- Model of `re.findall` for the URL regex: scan left to right, at a
match emit the maximal non-whitespace run and resume after it (the
`skip` flag consumes the remainder of an emitted run), otherwise
advance one character.  All alternatives are a literal prefix followed
by a greedy `\S+`, so every match is exactly the maximal
non-whitespace run starting at the match position. -/
def findUrlsAux : Bool → PyStr → List PyStr
  | _, [] => []
  | skip, c :: rest =>
    if isWsPy c then findUrlsAux false rest
    else if skip then findUrlsAux true rest
    else if urlMatchAt (c :: rest) then
      (c :: rest.takeWhile (fun x => !isWsPy x)) :: findUrlsAux true rest
    else findUrlsAux false rest

/-- Scanning starts outside of any match. -/
def findUrls (t : PyStr) : List PyStr := findUrlsAux false t

/-- Model of `extract_urls`: regex matches with the punctuation set
stripped from each match. -/
def extractUrls (t : PyStr) : List PyStr := (findUrls t).map stripUrlPunct

/-- Model of `urllib.parse._splitparams` as used by `urlparse` for the
http scheme: drop the `;params` part of the last path segment. -/
def splitParams (p : PyStr) : PyStr :=
  if 47 ∈ p then
    (p.reverse.dropWhile (fun c => !(c == 47))).reverse ++
      ((p.reverse.takeWhile (fun c => !(c == 47))).reverse.takeWhile
        (fun c => !(c == 59)))
  else p.takeWhile (fun c => !(c == 59))

/-- Parameter splitting is applied only when a semicolon is present. -/
def pathSplit (p : PyStr) : PyStr := if 59 ∈ p then splitParams p else p

/-- Netloc and path extraction after the scheme marker: the netloc
runs to the first `/`, `?` or `#`; mismatched square brackets in the
netloc raise `ValueError` in `urlsplit` (modelled as `none`); the path
then runs to the first `?` or `#`. -/
def parseNetlocPath (r : PyStr) : Option (PyStr × PyStr) :=
  let netloc := r.takeWhile (fun c => !(c == 47 || c == 63 || c == 35))
  if (91 ∈ netloc) ≠ (93 ∈ netloc) then none
  else
    let after := r.dropWhile (fun c => !(c == 47 || c == 63 || c == 35))
    some (netloc, pathSplit (after.takeWhile (fun c => !(c == 63 || c == 35))))

/-- Model of `urllib.parse.urlparse` restricted to netloc and path, the
two components `_analyze_url` reads.  The callers always pass a string
beginning with `http://` or `https://`; a scheme-less string parses to
an empty netloc with the whole string as path, as in Python. -/
def urlparsePy (s : PyStr) : Option (PyStr × PyStr) :=
  if startsWithL (ofStr (r"https://")) s then parseNetlocPath (s.drop 8)
  else if startsWithL (ofStr (r"http://")) s then parseNetlocPath (s.drop 7)
  else some ([], pathSplit s)

/-- Per-URL analysis record: the dictionary built by `_analyze_url`,
either fully populated or the degraded `{original, error}` marker
produced when URL parsing raises. -/
inductive UrlAnalysis where
  | ok (original domain path : PyStr)
      (isShortener hasSuspiciousTld isIpAddress hasLoginKeywords : Bool)
      (length : Nat)
  | failed (original : PyStr)
deriving DecidableEq, Repr

/-- The fixed shortener domain set of `FeatureExtractor`. -/
def shortenerDomains : List PyStr :=
  [ofStr (r"bit.ly"), ofStr (r"tinyurl.com"), ofStr (r"goo.gl"),
   ofStr (r"ow.ly"), ofStr (r"is.gd"), ofStr (r"adf.ly"),
   ofStr (r"shorte.st"), ofStr (r"t.co"), ofStr (r"buff.ly"),
   ofStr (r"cutt.ly"), ofStr (r"shorturl.at"), ofStr (r"rb.gy"),
   ofStr (r"bc.vc"), ofStr (r"soo.gd"), ofStr (r"s2r.co"),
   ofStr (r"click.ru"), ofStr (r"clck.ru"), ofStr (r"tiny.cc"),
   ofStr (r"tr.im"), ofStr (r"qr.net")]

/-- The fixed suspicious top-level-domain set of `FeatureExtractor`. -/
def suspiciousTlds : List PyStr :=
  [ofStr (r".xyz"), ofStr (r".top"), ofStr (r".club"), ofStr (r".work"),
   ofStr (r".site"), ofStr (r".online"), ofStr (r".click"), ofStr (r".link")]

/-- The login-related path keywords of `_analyze_url`. -/
def loginKeywords : List PyStr :=
  [ofStr (r"login"), ofStr (r"signin"), ofStr (r"verify"), ofStr (r"secure")]

/-- One `\d+` group followed by a dot, as consumed by the dotted-quad
pattern of `_analyze_url`. -/
def digitsDot (l : PyStr) : Option PyStr :=
  if l.takeWhile isDigitPy = [] then none
  else
    match l.dropWhile isDigitPy with
    | 46 :: rest => some rest
    | _ => none

/-- Model of `re.match(r'\d+\.\d+\.\d+\.\d+', domain)`: an anchored
prefix match of four digit groups separated by dots (deliberately not
validating octet ranges, as in the source). -/
def ipMatch (d : PyStr) : Bool :=
  match digitsDot d with
  | none => false
  | some r1 =>
    match digitsDot r1 with
    | none => false
    | some r2 =>
      match digitsDot r2 with
      | none => false
      | some r3 => decide (r3.takeWhile isDigitPy ≠ [])

/-- Model of `_analyze_url`: prefix a scheme when the URL does not
start with `http` (as in the source, which tests `startswith('http')`),
parse, and classify; a parse failure degrades to the error marker. -/
def analyzeUrl (url : PyStr) : UrlAnalysis :=
  let toParse :=
    if startsWithL (ofStr (r"http")) url then url else ofStr (r"http://") ++ url
  match urlparsePy toParse with
  | none => .failed url
  | some (netloc, path) =>
    let domain := lowerStr netloc
    let p := lowerStr path
    .ok url domain p
      (shortenerDomains.any fun s => containsSub s domain)
      (suspiciousTlds.any fun s => endsWithL s domain)
      (ipMatch domain)
      (loginKeywords.any fun s => containsSub s p)
      url.length

/-- Threat keyword weights of `FeatureExtractor`. -/
def threatTable : List (PyStr × ℚ) :=
  [(ofStr (r"urgent"), 1.5), (ofStr (r"immediate"), 1.5),
   (ofStr (r"asap"), 1.5), (ofStr (r"critical"), 1.5),
   (ofStr (r"emergency"), 1.5), (ofStr (r"important"), 1.3),
   (ofStr (r"verify"), 1.4), (ofStr (r"confirm"), 1.3),
   (ofStr (r"suspended"), 1.6), (ofStr (r"blocked"), 1.6),
   (ofStr (r"locked"), 1.6), (ofStr (r"terminated"), 1.6),
   (ofStr (r"expired"), 1.4), (ofStr (r"warning"), 1.3),
   (ofStr (r"alert"), 1.3), (ofStr (r"attention"), 1.2),
   (ofStr (r"required"), 1.2), (ofStr (r"necessary"), 1.2),
   (ofStr (r"compulsory"), 1.3)]

/-- Authentication keyword weights of `FeatureExtractor`. -/
def authTable : List (PyStr × ℚ) :=
  [(ofStr (r"login"), 1.4), (ofStr (r"password"), 1.6),
   (ofStr (r"credentials"), 1.6), (ofStr (r"authenticate"), 1.5),
   (ofStr (r"account"), 1.4), (ofStr (r"security"), 1.3),
   (ofStr (r"reset"), 1.5), (ofStr (r"update"), 1.3),
   (ofStr (r"verify"), 1.4), (ofStr (r"confirm"), 1.3),
   (ofStr (r"username"), 1.4), (ofStr (r"signin"), 1.4),
   (ofStr (r"sign-in"), 1.4), (ofStr (r"two-factor"), 1.5),
   (ofStr (r"2fa"), 1.5), (ofStr (r"multi-factor"), 1.5),
   (ofStr (r"access"), 1.3), (ofStr (r"authorize"), 1.4),
   (ofStr (r"validation"), 1.3)]

/-- Financial keyword weights of `FeatureExtractor`. -/
def financialTable : List (PyStr × ℚ) :=
  [(ofStr (r"bank"), 1.5), (ofStr (r"paypal"), 1.6),
   (ofStr (r"credit"), 1.4), (ofStr (r"payment"), 1.4),
   (ofStr (r"money"), 1.3), (ofStr (r"refund"), 1.5),
   (ofStr (r"invoice"), 1.4), (ofStr (r"billing"), 1.4),
   (ofStr (r"transaction"), 1.5), (ofStr (r"otp"), 1.6),
   (ofStr (r"pin"), 1.6), (ofStr (r"card"), 1.5),
   (ofStr (r"wire"), 1.4), (ofStr (r"transfer"), 1.5),
   (ofStr (r"deposit"), 1.4), (ofStr (r"withdrawal"), 1.4),
   (ofStr (r"fee"), 1.3), (ofStr (r"charge"), 1.3),
   (ofStr (r"statement"), 1.3), (ofStr (r"balance"), 1.3)]

/-- Impersonation keyword weights of `FeatureExtractor`. -/
def impersonationTable : List (PyStr × ℚ) :=
  [(ofStr (r"irs"), 1.6), (ofStr (r"microsoft"), 1.5),
   (ofStr (r"apple"), 1.5), (ofStr (r"google"), 1.5),
   (ofStr (r"amazon"), 1.5), (ofStr (r"paypal"), 1.6),
   (ofStr (r"fedex"), 1.4), (ofStr (r"ups"), 1.4),
   (ofStr (r"dhl"), 1.4), (ofStr (r"usps"), 1.4),
   (ofStr (r"government"), 1.5), (ofStr (r"official"), 1.4),
   (ofStr (r"support"), 1.3), (ofStr (r"customer"), 1.3),
   (ofStr (r"service"), 1.3), (ofStr (r"team"), 1.2)]

/-- Model of `text.split()`: whitespace-separated tokens, empties
discarded. -/
def splitWsAux : PyStr → PyStr → List PyStr
  | cur, [] => if cur = [] then [] else [cur]
  | cur, c :: rest =>
    if isWsPy c then
      if cur = [] then splitWsAux [] rest else cur :: splitWsAux [] rest
    else splitWsAux (cur ++ [c]) rest

/-- Tokenisation starts with an empty current token. -/
def splitWs (t : PyStr) : List PyStr := splitWsAux [] t

/-- Weighted keyword score: the sum of the weights of the table keys
present in the token set, each counted once (the source iterates over
`tokens & table.keys()`; summation order is irrelevant in `ℚ`). -/
def kwScore (table : List (PyStr × ℚ)) (toks : List PyStr) : ℚ :=
  table.foldl (fun acc kw => if kw.1 ∈ toks then acc + kw.2 else acc) 0

/-- Model of `_calculate_caps_ratio`: uppercase letters over total
letters of the argument, 0 when there are no letters. -/
def capsFracOf (t : PyStr) : ℚ :=
  let letters := t.filter isAlphaPy
  if letters = [] then 0
  else ((letters.filter isUpperPy).length : ℚ) / (letters.length : ℚ)

/-- Digit fraction feature: digit count over `max 1 length`. -/
def digitFracOf (t : PyStr) : ℚ :=
  ((t.filter isDigitPy).length : ℚ) / ((max 1 t.length : ℕ) : ℚ)

/-- Special character fraction feature: `string.punctuation` count over
`max 1 length`. -/
def specialFracOf (t : PyStr) : ℚ :=
  ((t.filter isAsciiPunct).length : ℚ) / ((max 1 t.length : ℕ) : ℚ)

/-- Greeting words of `_check_greeting`. -/
def greetingWords : List PyStr :=
  [ofStr (r"hi"), ofStr (r"hello"), ofStr (r"dear"),
   ofStr (r"greetings"), ofStr (r"good morning"), ofStr (r"good afternoon")]

/-- Model of `_check_greeting`: 1 when no greeting occurs in the first
50 characters (lowercased), else 0. -/
def checkGreeting (t : PyStr) : Nat :=
  if greetingWords.any (fun g => containsSub g (lowerStr (t.take 50))) then 0
  else 1

/-- Search for `within \d+ hours?` or `within \d+ days?`: the literal
`within `, one or more digits, then the given unit (` hour` or
` day`); the optional trailing letter of the regex never affects
whether a search succeeds. -/
def urgencyNumMatch (unit : PyStr) : PyStr → Bool
  | [] => false
  | c :: rest =>
    (startsWithL (ofStr (r"within ")) (c :: rest) &&
      (let after := (c :: rest).drop 7
       decide (after.takeWhile isDigitPy ≠ []) &&
         startsWithL unit (after.dropWhile isDigitPy))) ||
    urgencyNumMatch unit rest

/-- Model of `_check_urgency_indicators`: 1 when any urgency pattern
matches anywhere in the text. -/
def urgencyFlag (t : PyStr) : Nat :=
  if urgencyNumMatch (ofStr (r" hour")) t || urgencyNumMatch (ofStr (r" day")) t ||
      containsSub (ofStr (r"immediate action")) t ||
      containsSub (ofStr (r"act now")) t ||
      containsSub (ofStr (r"don") ++ [39] ++ ofStr (r"t delay")) t ||
      containsSub (ofStr (r"limited time")) t ||
      containsSub (ofStr (r"expires soon")) t ||
      containsSub (ofStr (r"last chance")) t
  then 1 else 0

/-- Generic salutations of `_check_generic_greeting`. -/
def genericGreetings : List PyStr :=
  [ofStr (r"dear customer"), ofStr (r"dear user"),
   ofStr (r"dear account holder"), ofStr (r"valued customer")]

/-- Model of `_check_generic_greeting`: 1 when a generic salutation
occurs in the first 100 characters (lowercased). -/
def checkGenericGreeting (t : PyStr) : Nat :=
  if genericGreetings.any (fun g => containsSub g (lowerStr (t.take 100))) then 1
  else 0

/-- The fixed-schema feature record built by `extract_features`. -/
structure FeatureRecord where
  threatScore : ℚ
  authScore : ℚ
  financialScore : ℚ
  impersonationScore : ℚ
  totalUrls : Nat
  suspiciousUrls : Nat
  suspiciousDomains : Nat
  ipAddressUrls : Nat
  urlDetails : List UrlAnalysis
  exclamCount : Nat
  capsFrac : ℚ
  digitFrac : ℚ
  specialFrac : ℚ
  greetingMissing : Nat
  senseOfUrgency : Nat
  genericGreeting : Nat
deriving DecidableEq, Repr

/-- The aggregation loop over per-URL analyses.  The source reads
`url_feat["is_shortener"]` (and the other boolean keys) directly from
each analysis dictionary; on a degraded `{original, error}` record
that lookup raises `KeyError`, modelled by `none`. -/
def urlCounts : List UrlAnalysis → Option (Nat × Nat × Nat)
  | [] => some (0, 0, 0)
  | .ok _ _ _ sh tld ip _ _ :: rest =>
    match urlCounts rest with
    | none => none
    | some (a, b, c) =>
      some ((if sh then a + 1 else a), (if tld then b + 1 else b),
        (if ip then c + 1 else c))
  | .failed _ :: _ => none

/-- Model of `extract_features`: keyword scores, URL analysis and
aggregation, textual fractions and context flags.  The result is
`none` exactly when the aggregation loop raises `KeyError` on a
degraded URL analysis. -/
def extractFeatures (text : PyStr) : Option FeatureRecord :=
  let toks := splitWs text
  let urls := extractUrls text
  let details := urls.map analyzeUrl
  match urlCounts details with
  | none => none
  | some (susp, dom, ip) =>
    some
      { threatScore := kwScore threatTable toks
        authScore := kwScore authTable toks
        financialScore := kwScore financialTable toks
        impersonationScore := kwScore impersonationTable toks
        totalUrls := urls.length
        suspiciousUrls := susp
        suspiciousDomains := dom
        ipAddressUrls := ip
        urlDetails := details
        exclamCount := text.count 33
        capsFrac := capsFracOf text
        digitFrac := digitFracOf text
        specialFrac := specialFracOf text
        greetingMissing := checkGreeting text
        senseOfUrgency := urgencyFlag text
        genericGreeting := checkGenericGreeting text }

/-- Sigmoid-like scaling of the ratio features in `calculate_score`:
`10 * (1 / (1 + 2.718 ** (-10 * (value - 0.3))))`, idealised over the
real numbers. -/
noncomputable def sigScale (v : ℝ) : ℝ :=
  10 * (1 / (1 + (2.718 : ℝ) ^ (-10 * (v - 0.3))))

/-- Model of `_logistic_scale`: `10 / (1 + 2.718 ** (-0.5 * (x - 5)))`. -/
noncomputable def logisticScale (x : ℝ) : ℝ :=
  10 / (1 + (2.718 : ℝ) ^ (-0.5 * (x - 5)))

/-- Python's `round` at integer precision: round half to even, other
values to the nearest integer (idealised over the real numbers; the
float representation effects of the original are not modelled). -/
noncomputable def pyRound (x : ℝ) : ℤ :=
  if Int.fract x = 1 / 2 then (if Even ⌊x⌋ then ⌊x⌋ else ⌊x⌋ + 1)
  else round x

/-- Model of `round(v, 1)`: round `10 * v` to an integer and divide
back by ten. -/
noncomputable def round1 (v : ℝ) : ℝ := (pyRound (10 * v) : ℝ) / 10

/-- The weighted base score of `calculate_score`: every numeric feature
times its weight, with the three ratio features first passed through
the sigmoid scaling.  (`url_details` is skipped by the source's
`isinstance` guard.) -/
noncomputable def baseScore (f : FeatureRecord) : ℝ :=
  0.8 * (f.threatScore : ℝ) + 0.7 * (f.authScore : ℝ) +
    0.9 * (f.financialScore : ℝ) + 0.8 * (f.impersonationScore : ℝ) +
    1.5 * (f.totalUrls : ℝ) + 2.5 * (f.suspiciousUrls : ℝ) +
    2.0 * (f.suspiciousDomains : ℝ) + 3.0 * (f.ipAddressUrls : ℝ) +
    0.3 * (f.exclamCount : ℝ) + 0.5 * sigScale (f.capsFrac : ℝ) +
    0.4 * sigScale (f.digitFrac : ℝ) + 0.3 * sigScale (f.specialFrac : ℝ) +
    0.6 * (f.greetingMissing : ℝ) + 1.2 * (f.senseOfUrgency : ℝ) +
    0.7 * (f.genericGreeting : ℝ)

/-- The compressed, rounded and clamped score before the multi-factor
penalty: `min(10.0, round(self._logistic_scale(base_score), 1))`. -/
noncomputable def preScore (f : FeatureRecord) : ℝ :=
  min 10 (round1 (logisticScale (baseScore f)))

/-- Number of satisfied multi-factor penalty conditions. -/
def penaltyCount (f : FeatureRecord) : Nat :=
  (if 0 < f.suspiciousUrls then 1 else 0) +
    (if 2 < f.threatScore then 1 else 0) +
    (if 2 < f.authScore then 1 else 0)

/-- Model of `RiskCalculator.calculate_score`. -/
noncomputable def calculateScore (f : FeatureRecord) : ℝ :=
  if 2 ≤ penaltyCount f then min 10 (preScore f + 1) else preScore f

/-- Severity bands of `_classify`. -/
inductive Band where
  | critical
  | high
  | medium
  | low
deriving DecidableEq, Repr

/-- Model of the threshold chain of `_classify` (`high_risk = 7.5`,
`medium_risk = 5.0`, `low_risk = 3.0`, evaluated high to low). -/
noncomputable def classifyBand (s : ℝ) : Band :=
  if 7.5 ≤ s then .critical
  else if 5 ≤ s then .high
  else if 3 ≤ s then .medium
  else .low

/-- Score ranges of the severity-band table of the specification
(critical `[7.5, 10]`, high `[5, 7.5)`, medium `[3, 5)`, low
`[0, 3)`). -/
def bandRange : Band → ℝ → Prop
  | .critical, s => 7.5 ≤ s ∧ s ≤ 10
  | .high, s => 5 ≤ s ∧ s < 7.5
  | .medium, s => 3 ≤ s ∧ s < 5
  | .low, s => 0 ≤ s ∧ s < 3

/-- Model of `_error_response` (the wall-clock timestamp is supplied by
the caller as a parameter). -/
structure ErrorResponse where
  status : PyStr
  message : PyStr
  timestamp : Nat
deriving DecidableEq, Repr

/-- The analysis dictionary assembled by `_classify`, restricted to the
fields the verified properties read (the advice, color, confidence,
keyword, explanation and recommendation fields are fixed functions of
the band and of the texts and are not modelled). -/
structure Analysis where
  originalText : PyStr
  processedText : PyStr
  features : FeatureRecord
  riskScore : ℝ
  severity : Band
  timestamp : Nat

/-- A detect call returns either the error-shaped dictionary or an
analysis result. -/
abbrev DetectResult := ErrorResponse ⊕ Analysis

/-- Model of `PhishingDetector.detect`; `none` models an uncaught
exception escaping the call, and `ts` stands for the wall-clock
timestamp. -/
noncomputable def detect (ts : Nat) (t : PyStr) : Option DetectResult :=
  if t = [] ∨ pyStrip t = [] then
    some (Sum.inl
      { status := ofStr (r"error")
        message := ofStr (r"Please enter a message to analyze")
        timestamp := ts })
  else
    match extractFeatures (preprocessText t) with
    | none => none
    | some f =>
      some (Sum.inr
        { originalText := t
          processedText := preprocessText t
          features := f
          riskScore := calculateScore f
          severity := classifyBand (calculateScore f)
          timestamp := ts })

/-- Features of the preprocessed text, as computed inside `detect`. -/
def featuresOf (t : PyStr) : Option FeatureRecord :=
  extractFeatures (preprocessText t)

/-- Severity projection of a detect result. -/
def resultSeverity : DetectResult → Option Band
  | Sum.inl _ => none
  | Sum.inr a => some a.severity

/-- Feature-record projection of a detect result. -/
def resultFeatures : DetectResult → Option FeatureRecord
  | Sum.inl _ => none
  | Sum.inr a => some a.features

/-- Severity reported by a detect call. -/
noncomputable def detectSeverity (ts : Nat) (t : PyStr) : Option Band :=
  (detect ts t).bind resultSeverity

/-- Feature record reported by a detect call. -/
noncomputable def detectFeatures (ts : Nat) (t : PyStr) : Option FeatureRecord :=
  (detect ts t).bind resultFeatures

/-- The banking example text of `get_example_messages` (scenario A of
the specification). -/
def bankText : PyStr :=
  ofStr (r"URGENT: Your bank account has been SUSPENDED due to suspicious activity. Click http://bit.ly/secure-bank-login to VERIFY your identity immediately or your account will be TERMINATED within 24 hours!")

/-- Feature record of the empty text, used as a concrete witness. -/
def emptyRecord : FeatureRecord :=
  { threatScore := 0, authScore := 0, financialScore := 0,
    impersonationScore := 0, totalUrls := 0, suspiciousUrls := 0,
    suspiciousDomains := 0, ipAddressUrls := 0, urlDetails := [],
    exclamCount := 0, capsFrac := 0, digitFrac := 0, specialFrac := 0,
    greetingMissing := 1, senseOfUrgency := 0, genericGreeting := 0 }

/-- A feature record meeting two of the three penalty conditions, used
as a concrete witness. -/
def penaltyRecord : FeatureRecord :=
  { emptyRecord with suspiciousUrls := 1, threatScore := 3 }

/-- Feature record computed for the banking example text. -/
def bankRecord : FeatureRecord :=
  { threatScore := 23 / 5, authScore := 14 / 5, financialScore := 3 / 2,
    impersonationScore := 0, totalUrls := 1, suspiciousUrls := 1,
    suspiciousDomains := 0, ipAddressUrls := 0,
    urlDetails := [UrlAnalysis.ok (ofStr (r"http://bit.ly/secure-bank-login"))
      (ofStr (r"bit.ly")) (ofStr (r"/secure-bank-login"))
      true false false true 31],
    exclamCount := 1, capsFrac := 0, digitFrac := 1 / 99,
    specialFrac := 5 / 99, greetingMissing := 1, senseOfUrgency := 1,
    genericGreeting := 0 }

/-- Feature record computed for the input `%21` (which percent-decodes
to a single exclamation mark). -/
def percentBangRecord : FeatureRecord :=
  { threatScore := 0, authScore := 0, financialScore := 0,
    impersonationScore := 0, totalUrls := 0, suspiciousUrls := 0,
    suspiciousDomains := 0, ipAddressUrls := 0, urlDetails := [],
    exclamCount := 1, capsFrac := 0, digitFrac := 0, specialFrac := 1,
    greetingMissing := 1, senseOfUrgency := 0, genericGreeting := 0 }

/-- Feature record computed for the input `Hello!!!`. -/
def helloRecord : FeatureRecord :=
  { threatScore := 0, authScore := 0, financialScore := 0,
    impersonationScore := 0, totalUrls := 0, suspiciousUrls := 0,
    suspiciousDomains := 0, ipAddressUrls := 0, urlDetails := [],
    exclamCount := 1, capsFrac := 0, digitFrac := 0, specialFrac := 1 / 6,
    greetingMissing := 0, senseOfUrgency := 0, genericGreeting := 0 }

/-- Relation stating that two adjacent characters are not both
whitespace (the whitespace-collapsed normal form). -/
def noTwoWs (a b : Nat) : Prop := ¬(isWsPy a = true ∧ isWsPy b = true)

/-- Relation stating that two adjacent characters are not both in the
class `[!?.]` (the punctuation-collapsed normal form). -/
def noTwoP3 (a b : Nat) : Prop := ¬(isPunct3 a = true ∧ isPunct3 b = true)

/-- Streaming count of maximal runs of characters from the class
`[!?.]` containing an exclamation mark: the state is `none` outside a
run and `some b` inside a run whose characters so far include an
exclamation mark iff `b`; a run is counted when it ends. -/
def runsBangAux : Option Bool → PyStr → Nat
  | st, [] => if st = some true then 1 else 0
  | st, c :: rest =>
    if isPunct3 c then runsBangAux (some (st.getD false || c == 33)) rest
    else (if st = some true then 1 else 0) + runsBangAux none rest

/-- Number of maximal runs of characters from the class `[!?.]` that
contain an exclamation mark (used to state the run bound of the
punctuation-collapsing step). -/
def runsBang (t : PyStr) : Nat := runsBangAux none t

/-!
Helper lemmas about the scoring arithmetic.
-/

theorem rpowE_pos (y : ℝ) : 0 < (2.718 : ℝ) ^ y :=
  Real.rpow_pos_of_pos (by norm_num) y

theorem sigScale_nonneg (v : ℝ) : 0 ≤ sigScale v := by
  unfold sigScale
  have h := rpowE_pos (-10 * (v - 0.3))
  have h1 : (0 : ℝ) < 1 + (2.718 : ℝ) ^ (-10 * (v - 0.3)) := by linarith
  positivity

theorem logisticScale_pos (x : ℝ) : 0 < logisticScale x := by
  unfold logisticScale
  have h := rpowE_pos (-0.5 * (x - 5))
  exact div_pos (by norm_num) (by linarith)

theorem logisticScale_lt_ten (x : ℝ) : logisticScale x < 10 := by
  unfold logisticScale
  have h := rpowE_pos (-0.5 * (x - 5))
  rw [div_lt_iff (by linarith)]
  nlinarith

theorem logisticScale_mono {x y : ℝ} (h : x ≤ y) :
    logisticScale x ≤ logisticScale y := by
  unfold logisticScale
  have hx := rpowE_pos (-0.5 * (x - 5))
  have hy := rpowE_pos (-0.5 * (y - 5))
  have hle : (2.718 : ℝ) ^ (-0.5 * (y - 5)) ≤ (2.718 : ℝ) ^ (-0.5 * (x - 5)) := by
    apply (Real.rpow_le_rpow_left_iff (by norm_num)).mpr
    linarith
  rw [div_le_div_iff (by linarith) (by linarith)]
  nlinarith

theorem floor_le_pyRound (x : ℝ) : ⌊x⌋ ≤ pyRound x := by
  unfold pyRound
  split
  · split
    · exact le_rfl
    · omega
  · rw [round_eq]
    exact Int.floor_mono (by linarith)

theorem pyRound_le_ceil (x : ℝ) : pyRound x ≤ ⌈x⌉ := by
  unfold pyRound
  split
  · rename_i hf
    have h1 : (⌊x⌋ : ℝ) + 1 / 2 = x := by
      have := Int.floor_add_fract x
      rw [hf] at this
      linarith
    have h2 : (⌊x⌋ : ℝ) < (⌈x⌉ : ℝ) := by
      have := Int.le_ceil x
      linarith
    have h3 : ⌊x⌋ < ⌈x⌉ := by exact_mod_cast h2
    split
    · exact le_of_lt h3
    · omega
  · rename_i hf
    rw [round_eq]
    rcases lt_or_gt_of_ne hf with hlt | hgt
    · have h0 : ⌊x + 1 / 2⌋ = ⌊x⌋ := by
        apply Int.floor_eq_iff.mpr
        have e1 := Int.floor_add_fract x
        have e2 := Int.fract_nonneg x
        constructor <;> push_cast <;> linarith
      rw [h0]
      exact Int.floor_le_ceil x
    · have h1 : ⌊x + 1 / 2⌋ = ⌊x⌋ + 1 := by
        apply Int.floor_eq_iff.mpr
        have e1 := Int.floor_add_fract x
        have e2 := Int.fract_lt_one x
        constructor <;> push_cast <;> linarith
      have h2 : (⌊x⌋ : ℝ) < (⌈x⌉ : ℝ) := by
        have e1 := Int.floor_add_fract x
        have e2 := Int.le_ceil x
        linarith
      have h3 : ⌊x⌋ < ⌈x⌉ := by exact_mod_cast h2
      rw [h1]
      omega

theorem pyRound_mono {x y : ℝ} (h : x ≤ y) : pyRound x ≤ pyRound y := by
  rcases lt_or_eq_of_le (Int.floor_mono h) with hf | hf
  · calc pyRound x ≤ ⌈x⌉ := pyRound_le_ceil x
      _ ≤ ⌊x⌋ + 1 := Int.ceil_le_floor_add_one x
      _ ≤ ⌊y⌋ := by omega
      _ ≤ pyRound y := floor_le_pyRound y
  · have hfr : Int.fract x ≤ Int.fract y := by
      have ex := Int.floor_add_fract x
      have ey := Int.floor_add_fract y
      rw [hf] at ex
      linarith
    by_cases h1 : Int.fract x = 1 / 2 <;> by_cases h2 : Int.fract y = 1 / 2
    · have hxy : x = y := by
        have ex := Int.floor_add_fract x
        have ey := Int.floor_add_fract y
        rw [h1, hf] at ex
        rw [h2] at ey
        linarith
      rw [hxy]
    · have hgt : 1 / 2 < Int.fract y := lt_of_le_of_ne (h1 ▸ hfr) (Ne.symm h2)
      have hry : pyRound y = ⌊y⌋ + 1 := by
        unfold pyRound
        rw [if_neg h2, round_eq]
        apply Int.floor_eq_iff.mpr
        have e1 := Int.floor_add_fract y
        have e2 := Int.fract_lt_one y
        constructor <;> push_cast <;> linarith
      have hx_le : pyRound x ≤ ⌊x⌋ + 1 := by
        unfold pyRound
        rw [if_pos h1]
        split <;> omega
      rw [hry, ← hf]
      omega
    · have hlt : Int.fract x < 1 / 2 := lt_of_le_of_ne (h2 ▸ hfr) h1
      have hrx : pyRound x = ⌊x⌋ := by
        unfold pyRound
        rw [if_neg h1, round_eq]
        apply Int.floor_eq_iff.mpr
        have e1 := Int.floor_add_fract x
        have e2 := Int.fract_nonneg x
        constructor <;> push_cast <;> linarith
      have hfl := floor_le_pyRound y
      rw [hrx, hf]
      omega
    · unfold pyRound
      rw [if_neg h1, if_neg h2, round_eq, round_eq]
      exact Int.floor_mono (by linarith)

theorem round1_nonneg {v : ℝ} (h : 0 ≤ v) : 0 ≤ round1 v := by
  unfold round1
  have h1 : (0 : ℤ) ≤ ⌊10 * v⌋ := Int.floor_nonneg.mpr (by linarith)
  have h2 := floor_le_pyRound (10 * v)
  have h3 : (0 : ℝ) ≤ (pyRound (10 * v) : ℝ) := by exact_mod_cast le_trans h1 h2
  linarith

theorem round1_mono {v w : ℝ} (h : v ≤ w) : round1 v ≤ round1 w := by
  unfold round1
  have h1 := pyRound_mono (show 10 * v ≤ 10 * w by linarith)
  have h2 : (pyRound (10 * v) : ℝ) ≤ (pyRound (10 * w) : ℝ) := by exact_mod_cast h1
  linarith

theorem le_round1 {n : ℤ} {v : ℝ} (h : (n : ℝ) ≤ 10 * v) :
    (n : ℝ) / 10 ≤ round1 v := by
  unfold round1
  have h1 : n ≤ ⌊10 * v⌋ := Int.le_floor.mpr h
  have h2 := floor_le_pyRound (10 * v)
  have h3 : (n : ℝ) ≤ (pyRound (10 * v) : ℝ) := by exact_mod_cast le_trans h1 h2
  linarith

theorem preScore_nonneg (f : FeatureRecord) : 0 ≤ preScore f :=
  le_min (by norm_num) (round1_nonneg (le_of_lt (logisticScale_pos _)))

theorem preScore_le_ten (f : FeatureRecord) : preScore f ≤ 10 :=
  min_le_left _ _

theorem calculateScore_nonneg (f : FeatureRecord) : 0 ≤ calculateScore f := by
  unfold calculateScore
  split
  · exact le_min (by norm_num) (by linarith [preScore_nonneg f])
  · exact preScore_nonneg f

theorem calculateScore_le_ten (f : FeatureRecord) : calculateScore f ≤ 10 := by
  unfold calculateScore
  split
  · exact min_le_left _ _
  · exact preScore_le_ten f

theorem preScore_mono_base {f g : FeatureRecord}
    (h : baseScore f ≤ baseScore g) : preScore f ≤ preScore g :=
  min_le_min le_rfl (round1_mono (logisticScale_mono h))

theorem classifyBand_mem_bandRange {s : ℝ} (h0 : 0 ≤ s) (h10 : s ≤ 10) :
    bandRange (classifyBand s) s := by
  unfold classifyBand
  split_ifs with h1 h2 h3 <;> simp only [bandRange] <;> constructor <;> linarith

theorem bandRange_unique {s : ℝ} (b : Band) (hb : bandRange b s) :
    b = classifyBand s := by
  unfold classifyBand
  split_ifs with h1 h2 h3 <;> cases b <;>
    simp only [bandRange] at hb <;>
    first
    | rfl
    | (exact absurd hb.1 (by linarith))
    | (exact absurd hb.2 (by linarith))

theorem logisticScale_ge_of_thirteen {x : ℝ} (h : 13 ≤ x) :
    6.5 ≤ logisticScale x := by
  unfold logisticScale
  have hp := rpowE_pos (-0.5 * (x - 5))
  have hle : (2.718 : ℝ) ^ (-0.5 * (x - 5)) ≤ (2.718 : ℝ) ^ (-(4 : ℝ)) := by
    apply (Real.rpow_le_rpow_left_iff (by norm_num)).mpr
    linarith
  have h4 : (2.718 : ℝ) ^ (-(4 : ℝ)) ≤ 1 / 50 := by
    rw [Real.rpow_neg (by norm_num), show ((4 : ℝ) = ((4 : ℕ) : ℝ)) by norm_num,
      Real.rpow_natCast]
    norm_num
  have hfinal : (2.718 : ℝ) ^ (-0.5 * (x - 5)) ≤ 1 / 50 := le_trans hle h4
  rw [le_div_iff (by linarith)]
  linarith

/-!
Helper lemmas about the text pipeline.
-/

theorem pyLower_idem (c : Nat) : pyLower (pyLower c) = pyLower c := by
  unfold pyLower
  split_ifs with h1 h2 <;> omega

theorem pyLower_ne_37 {c : Nat} (h : c ≠ 37) : pyLower c ≠ 37 := by
  unfold pyLower
  split_ifs with h1 <;> omega

theorem isUpperPy_pyLower (c : Nat) : isUpperPy (pyLower c) = false := by
  simp only [isUpperPy, pyLower]
  split_ifs with h1 <;> simp <;> omega

theorem mem_wsCollapseAux {c : Nat} :
    ∀ {pw : Bool} {l : PyStr}, c ∈ wsCollapseAux pw l → c = 32 ∨ c ∈ l := by
  intro pw l
  induction l generalizing pw with
  | nil => intro h; simp [wsCollapseAux] at h
  | cons d rest ih =>
    intro h
    by_cases hd : isWsPy d
    · by_cases hpw : pw
      · simp only [wsCollapseAux, hd, hpw, if_true] at h
        rcases ih h with h32 | hm
        · exact Or.inl h32
        · exact Or.inr (List.mem_cons_of_mem d hm)
      · simp only [wsCollapseAux, hd, hpw, if_true, if_false, Bool.false_eq_true] at h
        rcases List.mem_cons.mp h with h32 | h'
        · exact Or.inl h32
        · rcases ih h' with h32 | hm
          · exact Or.inl h32
          · exact Or.inr (List.mem_cons_of_mem d hm)
    · simp only [wsCollapseAux, hd, if_false, Bool.false_eq_true] at h
      rcases List.mem_cons.mp h with rfl | h'
      · exact Or.inr (List.mem_cons_self c rest)
      · rcases ih h' with h32 | hm
        · exact Or.inl h32
        · exact Or.inr (List.mem_cons_of_mem d hm)

theorem mem_punctCollapse {c : Nat} :
    ∀ {l : PyStr}, c ∈ punctCollapse l → c ∈ l := by
  intro l
  induction l using punctCollapse.induct with
  | case1 => intro h; simp [punctCollapse] at h
  | case2 d => intro h; simpa [punctCollapse] using h
  | case3 a b rest hab ih =>
    intro h
    simp only [punctCollapse, hab, if_true] at h
    exact List.mem_cons_of_mem a (ih h)
  | case4 a b rest hab ih =>
    intro h
    simp only [punctCollapse, hab, if_false, Bool.false_eq_true] at h
    rcases List.mem_cons.mp h with rfl | h'
    · exact List.mem_cons_self c _
    · exact List.mem_cons_of_mem a (ih h')

theorem mem_pyStrip {c : Nat} {l : PyStr} (h : c ∈ pyStrip l) : c ∈ l := by
  unfold pyStrip at h
  exact (List.dropWhile_suffix isWsPy).sublist.subset
    ((List.rdropWhile_prefix isWsPy _).sublist.subset h)

theorem unquotePy_eq_self : ∀ {l : PyStr}, 37 ∉ l → unquotePy l = l := by
  intro l
  induction l using unquotePy.induct with
  | case1 => intro _; rfl
  | case2 a b rest hi lo hb ha ih =>
    intro h
    exact absurd (List.mem_cons_self 37 _) h
  | case3 a b rest hfail ih =>
    intro h
    exact absurd (List.mem_cons_self 37 _) h
  | case4 c a b rest hc ih =>
    intro h
    have htail : 37 ∉ a :: b :: rest := fun hm => h (List.mem_cons_of_mem c hm)
    simp only [unquotePy, hc, if_false, if_neg hc]
    rw [ih htail]
  | case5 c rest hshape ih =>
    intro h
    have htail : 37 ∉ rest := fun hm => h (List.mem_cons_of_mem c hm)
    rcases rest with _ | ⟨x, _ | ⟨y, rest2⟩⟩
    · rfl
    · rfl
    · exact absurd rfl (by intro he; exact hshape x y rest2 he)

theorem no37_wsCollapse_pyStrip_lower {t : PyStr} (h : 37 ∉ t) :
    37 ∉ wsCollapse (pyStrip (lowerStr t)) := by
  intro hm
  rcases mem_wsCollapseAux hm with h32 | hm'
  · omega
  · have hm2 := mem_pyStrip hm'
    rcases List.mem_map.mp hm2 with ⟨a, ha, hla⟩
    have hane : a ≠ 37 := fun he => h (he ▸ ha)
    exact pyLower_ne_37 hane hla

theorem preprocess_no_upper {t : PyStr} (h : 37 ∉ t) :
    ∀ c ∈ preprocessText t, isUpperPy c = false := by
  intro c hc
  unfold preprocessText at hc
  split at hc
  · simp at hc
  · rw [unquotePy_eq_self (no37_wsCollapse_pyStrip_lower h)] at hc
    have hc' := mem_punctCollapse hc
    rcases mem_wsCollapseAux hc' with h32 | hm
    · subst h32; rfl
    · have hm2 := mem_pyStrip hm
      rcases List.mem_map.mp hm2 with ⟨a, _, hla⟩
      rw [← hla]
      exact isUpperPy_pyLower a

theorem capsFracOf_eq_zero {u : PyStr} (h : ∀ c ∈ u, isUpperPy c = false) :
    capsFracOf u = 0 := by
  have hnil : (u.filter isAlphaPy).filter isUpperPy = [] := by
    rw [List.filter_eq_nil_iff]
    intro a ha
    rw [h a (List.mem_of_mem_filter ha)]
    simp
  by_cases hl : u.filter isAlphaPy = [] <;> simp [capsFracOf, hl, hnil]

theorem extractFeatures_fields {text : PyStr} {g : FeatureRecord}
    (h : extractFeatures text = some g) :
    g.capsFrac = capsFracOf text ∧ g.exclamCount = text.count 33 := by
  simp only [extractFeatures] at h
  cases hm : urlCounts ((extractUrls text).map analyzeUrl) with
  | none => rw [hm] at h; simp at h
  | some trip =>
    obtain ⟨a, b, c⟩ := trip
    rw [hm] at h
    simp only [Option.some.injEq] at h
    subst h
    exact ⟨rfl, rfl⟩

theorem detectFeatures_some {ts : Nat} {t : PyStr} {f : FeatureRecord}
    (h : detectFeatures ts t = some f) :
    extractFeatures (preprocessText t) = some f := by
  unfold detectFeatures detect at h
  split at h
  · simp [resultFeatures] at h
  · cases hm : extractFeatures (preprocessText t) with
    | none => rw [hm] at h; simp at h
    | some g =>
      rw [hm] at h
      simp [resultFeatures] at h
      rw [h]

/-!
Normal-form lemmas for the normalizer: the output of `preprocess_text`
has no uppercase letter, no whitespace other than single interior
spaces, no percent-decodable sequence (for percent-free input) and no
two adjacent `[!?.]` characters, and each pipeline stage is the
identity on strings already in its normal form.
-/

theorem ws_not_p3 {c : Nat} (h : isWsPy c = true) : isPunct3 c = false := by
  simp only [isWsPy, Bool.or_eq_true, Bool.and_eq_true, decide_eq_true_eq,
    beq_iff_eq] at h
  simp only [isPunct3, Bool.or_eq_false_iff, beq_eq_false_iff_ne]
  omega

theorem p3_not_ws {c : Nat} (h : isPunct3 c = true) : isWsPy c = false := by
  simp only [isPunct3, Bool.or_eq_true, beq_iff_eq] at h
  simp only [isWsPy, Bool.or_eq_false_iff, Bool.and_eq_false_iff,
    decide_eq_false_iff_not, beq_eq_false_iff_ne]
  omega

theorem head_dropWhile_false {p : Nat → Bool} :
    ∀ {l : PyStr} {c : Nat}, (l.dropWhile p).head? = some c → p c = false := by
  intro l
  induction l with
  | nil => intro c h; simp at h
  | cons d rest ih =>
    intro c h
    cases hd : p d
    · rw [List.dropWhile_cons_of_neg (by simp [hd])] at h
      simp only [List.head?_cons, Option.some.injEq] at h
      rw [← h]
      exact hd
    · rw [List.dropWhile_cons_of_pos hd] at h
      exact ih h

theorem head_pyStrip_false {l : PyStr} {c : Nat}
    (h : (pyStrip l).head? = some c) : isWsPy c = false := by
  unfold pyStrip at h
  obtain ⟨s, hs⟩ := List.rdropWhile_prefix isWsPy (l.dropWhile isWsPy)
  cases hr : (l.dropWhile isWsPy).rdropWhile isWsPy with
  | nil => rw [hr] at h; simp at h
  | cons d ds =>
    rw [hr] at h hs
    simp only [List.head?_cons, Option.some.injEq] at h
    apply head_dropWhile_false (l := l) (p := isWsPy)
    rw [← hs]
    simp [h]

theorem getLast?_pyStrip_false {l : PyStr} {c : Nat}
    (h : (pyStrip l).getLast? = some c) : isWsPy c = false := by
  have hne : pyStrip l ≠ [] := by
    intro he
    rw [he] at h
    simp at h
  have hnot := List.rdropWhile_last_not (p := isWsPy) (l := l.dropWhile isWsPy) hne
  have hgl := List.getLast?_eq_getLast (pyStrip l) hne
  rw [hgl] at h
  simp only [Option.some.injEq] at h
  rw [← h]
  simpa using hnot

theorem wsCollapseAux_true_head :
    ∀ {l : PyStr} {c : Nat}, (wsCollapseAux true l).head? = some c →
      isWsPy c = false := by
  intro l
  induction l with
  | nil => intro c h; simp [wsCollapseAux] at h
  | cons d rest ih =>
    intro c h
    cases hd : isWsPy d
    · simp only [wsCollapseAux, hd, Bool.false_eq_true, if_false,
        List.head?_cons, Option.some.injEq] at h
      rw [← h]
      exact hd
    · simp only [wsCollapseAux, hd, if_true] at h
      exact ih h

theorem wsCollapseAux_chain :
    ∀ (l : PyStr) (pw : Bool), List.Chain' noTwoWs (wsCollapseAux pw l) := by
  intro l
  induction l with
  | nil => intro pw; simp [wsCollapseAux]
  | cons d rest ih =>
    intro pw
    cases hd : isWsPy d
    · simp only [wsCollapseAux, hd, Bool.false_eq_true, if_false]
      rw [List.chain'_cons']
      refine ⟨?_, ih false⟩
      intro y _
      unfold noTwoWs
      rintro ⟨h1, _⟩
      rw [hd] at h1
      exact Bool.false_ne_true h1
    · cases pw
      · simp only [wsCollapseAux, hd, if_true, Bool.false_eq_true, if_false]
        rw [List.chain'_cons']
        refine ⟨?_, ih true⟩
        intro y hy
        unfold noTwoWs
        rintro ⟨_, h2⟩
        rw [wsCollapseAux_true_head (Option.mem_def.mp hy)] at h2
        exact Bool.false_ne_true h2
      · simp only [wsCollapseAux, hd, if_true]
        exact ih true

theorem wsCollapseAux_ws32 :
    ∀ (l : PyStr) (pw : Bool) (c : Nat),
      c ∈ wsCollapseAux pw l → isWsPy c = true → c = 32 := by
  intro l
  induction l with
  | nil => intro pw c h _; simp [wsCollapseAux] at h
  | cons d rest ih =>
    intro pw c h hws
    cases hd : isWsPy d
    · simp only [wsCollapseAux, hd, Bool.false_eq_true, if_false] at h
      rcases List.mem_cons.mp h with rfl | h'
      · rw [hws] at hd
        exact absurd hd (by simp)
      · exact ih false c h' hws
    · cases pw
      · simp only [wsCollapseAux, hd, if_true, Bool.false_eq_true, if_false] at h
        rcases List.mem_cons.mp h with rfl | h'
        · rfl
        · exact ih true c h' hws
      · simp only [wsCollapseAux, hd, if_true] at h
        exact ih true c h hws

theorem getLast?_cons_of_ne_nil {a : Nat} {x : PyStr} (h : x ≠ []) :
    (a :: x).getLast? = x.getLast? := by
  cases x with
  | nil => exact absurd rfl h
  | cons b xs => simp [List.getLast?_cons_cons]

theorem wsCollapseAux_getLast? :
    ∀ (l : PyStr) (c : Nat), l.getLast? = some c → isWsPy c = false →
      ∀ pw, (wsCollapseAux pw l).getLast? = some c := by
  intro l
  induction l with
  | nil => intro c h _ _; simp at h
  | cons d rest ih =>
    intro c h hws pw
    cases rest with
    | nil =>
      simp only [List.getLast?_singleton, Option.some.injEq] at h
      subst h
      simp [wsCollapseAux, hws]
    | cons e rest' =>
      rw [List.getLast?_cons_cons] at h
      have hrest := ih c h hws
      have hne : ∀ pw', wsCollapseAux pw' (e :: rest') ≠ [] := by
        intro pw' he
        have := hrest pw'
        rw [he] at this
        simp at this
      cases hd : isWsPy d
      · rw [wsCollapseAux, hd]
        simp only [Bool.false_eq_true, if_false]
        rw [getLast?_cons_of_ne_nil (hne false)]
        exact hrest false
      · cases pw
        · rw [wsCollapseAux, hd]
          simp only [if_true, Bool.false_eq_true, if_false]
          rw [getLast?_cons_of_ne_nil (hne true)]
          exact hrest true
        · rw [wsCollapseAux, hd]
          simp only [if_true]
          exact hrest true

theorem punctCollapse_ne_nil : ∀ {l : PyStr}, l ≠ [] → punctCollapse l ≠ [] := by
  intro l
  induction l using punctCollapse.induct with
  | case1 => intro h; exact absurd rfl h
  | case2 c => intro _; simp [punctCollapse]
  | case3 a b rest hab ih =>
    intro _
    simp only [punctCollapse, hab, if_true]
    exact ih (by simp)
  | case4 a b rest hab ih =>
    intro _
    simp [punctCollapse, hab]

theorem punctCollapse_getLast? :
    ∀ (l : PyStr), (punctCollapse l).getLast? = l.getLast? := by
  intro l
  induction l using punctCollapse.induct with
  | case1 => rfl
  | case2 c => rfl
  | case3 a b rest hab ih =>
    simp only [punctCollapse, hab, if_true]
    rw [ih, List.getLast?_cons_cons]
  | case4 a b rest hab ih =>
    rw [punctCollapse, if_neg hab,
      getLast?_cons_of_ne_nil (punctCollapse_ne_nil (by simp)), ih,
      List.getLast?_cons_cons]

theorem punctCollapse_head_of_false {b : Nat} {rest : PyStr}
    (h : isPunct3 b = false) : (punctCollapse (b :: rest)).head? = some b := by
  cases rest with
  | nil => simp [punctCollapse]
  | cons d rest2 => simp [punctCollapse, h]

theorem punctCollapse_head_cases :
    ∀ {l : PyStr} {c : Nat}, (punctCollapse l).head? = some c →
      l.head? = some c ∨ isPunct3 c = true := by
  intro l
  induction l using punctCollapse.induct with
  | case1 => intro c h; simp [punctCollapse] at h
  | case2 d =>
    intro c h
    simp only [punctCollapse, List.head?_cons, Option.some.injEq] at h
    exact Or.inl (by simp [← h])
  | case3 a b rest hab ih =>
    intro c h
    simp only [punctCollapse, hab, if_true] at h
    rcases ih h with hh | hp
    · simp only [List.head?_cons, Option.some.injEq] at hh
      refine Or.inr ?_
      rw [← hh]
      rw [Bool.and_eq_true] at hab
      exact hab.2
    · exact Or.inr hp
  | case4 a b rest hab ih =>
    intro c h
    simp only [punctCollapse, hab, Bool.false_eq_true, if_false,
      List.head?_cons, Option.some.injEq] at h
    exact Or.inl (by simp [← h])

theorem punctCollapse_chain_p3 :
    ∀ (l : PyStr), List.Chain' noTwoP3 (punctCollapse l) := by
  intro l
  induction l using punctCollapse.induct with
  | case1 => simp [punctCollapse]
  | case2 c => simp [punctCollapse]
  | case3 a b rest hab ih =>
    simp only [punctCollapse, hab, if_true]
    exact ih
  | case4 a b rest hab ih =>
    simp only [punctCollapse, hab, Bool.false_eq_true, if_false]
    rw [List.chain'_cons']
    refine ⟨?_, ih⟩
    intro y hy
    unfold noTwoP3
    rintro ⟨h1, h2⟩
    cases hpb : isPunct3 b
    · have hh := @punctCollapse_head_of_false b rest hpb
      rw [Option.mem_def.mp hy] at hh
      simp only [Option.some.injEq] at hh
      rw [hh] at h2
      rw [hpb] at h2
      exact Bool.false_ne_true h2
    · have : (isPunct3 a && isPunct3 b) = true := by rw [h1, hpb]; rfl
      exact hab this

theorem punctCollapse_chain_ws :
    ∀ (l : PyStr), List.Chain' noTwoWs l →
      List.Chain' noTwoWs (punctCollapse l) := by
  intro l
  induction l using punctCollapse.induct with
  | case1 => intro _; simp [punctCollapse]
  | case2 c => intro _; simp [punctCollapse]
  | case3 a b rest hab ih =>
    intro hch
    simp only [punctCollapse, hab, if_true]
    exact ih (List.chain'_cons'.mp hch).2
  | case4 a b rest hab ih =>
    intro hch
    obtain ⟨hrel, htail⟩ := List.chain'_cons'.mp hch
    simp only [punctCollapse, hab, Bool.false_eq_true, if_false]
    rw [List.chain'_cons']
    refine ⟨?_, ih htail⟩
    intro y hy
    rcases punctCollapse_head_cases (Option.mem_def.mp hy) with hh | hp
    · simp only [List.head?_cons, Option.some.injEq] at hh
      subst hh
      exact hrel b (by simp)
    · unfold noTwoWs
      rintro ⟨_, h2⟩
      rw [p3_not_ws hp] at h2
      exact Bool.false_ne_true h2

theorem lowerStr_eq_self : ∀ {l : PyStr}, (∀ c ∈ l, pyLower c = c) →
    lowerStr l = l := by
  intro l
  induction l with
  | nil => intro _; rfl
  | cons d rest ih =>
    intro h
    simp only [lowerStr, List.map_cons]
    rw [h d (by simp)]
    have htail := ih (fun c hc => h c (by simp [hc]))
    rw [show List.map pyLower rest = rest from htail]

theorem wsCollapse_id : ∀ (l : PyStr), List.Chain' noTwoWs l →
    (∀ c ∈ l, isWsPy c = true → c = 32) →
    (wsCollapseAux false l = l ∧
      ((∀ c, l.head? = some c → isWsPy c = false) → wsCollapseAux true l = l)) := by
  intro l
  induction l with
  | nil => intro _ _; exact ⟨rfl, fun _ => rfl⟩
  | cons d rest ih =>
    intro hch h32
    obtain ⟨hrel, htail⟩ := List.chain'_cons'.mp hch
    have h32' : ∀ c ∈ rest, isWsPy c = true → c = 32 :=
      fun c hc => h32 c (by simp [hc])
    obtain ⟨ihf, iht⟩ := ih htail h32'
    constructor
    · cases hd : isWsPy d
      · rw [wsCollapseAux, hd]
        simp only [Bool.false_eq_true, if_false]
        rw [ihf]
      · have hd32 : d = 32 := h32 d (by simp) hd
        rw [wsCollapseAux, hd]
        simp only [if_true, Bool.false_eq_true, if_false]
        have hhead : ∀ c, rest.head? = some c → isWsPy c = false := by
          intro c hc
          have hrc := hrel c (Option.mem_def.mpr hc)
          unfold noTwoWs at hrc
          cases hwc : isWsPy c
          · rfl
          · exact absurd ⟨hd, hwc⟩ hrc
        rw [iht hhead, hd32]
    · intro hhead
      have hd : isWsPy d = false := hhead d rfl
      rw [wsCollapseAux, hd]
      simp only [Bool.false_eq_true, if_false]
      rw [ihf]

theorem punctCollapse_id : ∀ (l : PyStr), List.Chain' noTwoP3 l →
    punctCollapse l = l := by
  intro l
  induction l using punctCollapse.induct with
  | case1 => intro _; rfl
  | case2 c => intro _; rfl
  | case3 a b rest hab ih =>
    intro hch
    obtain ⟨hrel, _⟩ := List.chain'_cons'.mp hch
    rw [Bool.and_eq_true] at hab
    exact absurd ⟨hab.1, hab.2⟩ (hrel b (by simp))
  | case4 a b rest hab ih =>
    intro hch
    rw [punctCollapse, if_neg hab, ih (List.chain'_cons'.mp hch).2]

theorem pyStrip_id (l : PyStr)
    (hh : ∀ c, l.head? = some c → isWsPy c = false)
    (hl : ∀ c, l.getLast? = some c → isWsPy c = false) : pyStrip l = l := by
  unfold pyStrip
  have h1 : l.dropWhile isWsPy = l := by
    cases l with
    | nil => rfl
    | cons d rest =>
      rw [List.dropWhile_cons_of_neg]
      simp [hh d rfl]
  rw [h1]
  apply List.rdropWhile_eq_self_iff.mpr
  intro hne
  have := hl (l.getLast hne) (List.getLast?_eq_getLast l hne)
  simp [this]

theorem mem_preprocess_32_or_lower {t : PyStr} {c : Nat}
    (hc : c ∈ preprocessText t) (h37 : 37 ∉ t) :
    c = 32 ∨ ∃ a ∈ t, c = pyLower a := by
  unfold preprocessText at hc
  split at hc
  · simp at hc
  · rw [unquotePy_eq_self (no37_wsCollapse_pyStrip_lower h37)] at hc
    have hc1 := mem_punctCollapse hc
    rcases mem_wsCollapseAux hc1 with h32 | hm
    · exact Or.inl h32
    · have hm2 := mem_pyStrip hm
      rcases List.mem_map.mp hm2 with ⟨a, ha, hla⟩
      exact Or.inr ⟨a, ha, hla.symm⟩

theorem preprocess_head_not_ws {t : PyStr} {c : Nat} (h37 : 37 ∉ t)
    (h : (preprocessText t).head? = some c) : isWsPy c = false := by
  unfold preprocessText at h
  split at h
  · simp at h
  · rw [unquotePy_eq_self (no37_wsCollapse_pyStrip_lower h37)] at h
    rcases punctCollapse_head_cases h with hh | hp
    · cases hps : pyStrip (lowerStr t) with
      | nil => rw [hps] at hh; simp [wsCollapse, wsCollapseAux] at hh
      | cons d rest =>
        have hd : isWsPy d = false :=
          head_pyStrip_false (l := lowerStr t) (by rw [hps]; rfl)
        rw [hps] at hh
        unfold wsCollapse at hh
        rw [wsCollapseAux, hd] at hh
        simp only [Bool.false_eq_true, if_false, List.head?_cons,
          Option.some.injEq] at hh
        rw [← hh]
        exact hd
    · exact p3_not_ws hp

theorem preprocess_getLast_not_ws {t : PyStr} {c : Nat} (h37 : 37 ∉ t)
    (h : (preprocessText t).getLast? = some c) : isWsPy c = false := by
  unfold preprocessText at h
  split at h
  · simp at h
  · rw [unquotePy_eq_self (no37_wsCollapse_pyStrip_lower h37)] at h
    rw [punctCollapse_getLast?] at h
    cases hps : pyStrip (lowerStr t) with
    | nil => rw [hps] at h; simp [wsCollapse, wsCollapseAux] at h
    | cons d rest =>
      obtain ⟨e, he⟩ : ∃ e, (d :: rest).getLast? = some e :=
        ⟨(d :: rest).getLast (by simp), List.getLast?_eq_getLast _ (by simp)⟩
      have hwse : isWsPy e = false :=
        getLast?_pyStrip_false (l := lowerStr t) (by rw [hps]; exact he)
      have hgl := wsCollapseAux_getLast? (d :: rest) e he hwse false
      rw [hps] at h
      unfold wsCollapse at h
      rw [hgl] at h
      simp only [Option.some.injEq] at h
      rw [← h]
      exact hwse

theorem preprocess_idem {t : PyStr} (h37 : 37 ∉ t) :
    preprocessText (preprocessText t) = preprocessText t := by
  by_cases hu : preprocessText t = []
  · rw [hu]
    rfl
  · have ht : t ≠ [] := fun he => hu (by rw [he]; rfl)
    have heq : preprocessText t =
        punctCollapse (wsCollapse (pyStrip (lowerStr t))) := by
      unfold preprocessText
      rw [if_neg ht, unquotePy_eq_self (no37_wsCollapse_pyStrip_lower h37)]
    have h37u : 37 ∉ preprocessText t := by
      intro hm
      rcases mem_preprocess_32_or_lower hm h37 with h32 | ⟨a, ha, hla⟩
      · omega
      · exact pyLower_ne_37 (fun he => h37 (he ▸ ha)) hla.symm
    have hlower : ∀ c ∈ preprocessText t, pyLower c = c := by
      intro c hc
      rcases mem_preprocess_32_or_lower hc h37 with h32 | ⟨a, _, hla⟩
      · subst h32; decide
      · rw [hla]; exact pyLower_idem a
    have hch_ws : List.Chain' noTwoWs (preprocessText t) := by
      rw [heq]
      exact punctCollapse_chain_ws _ (wsCollapseAux_chain _ false)
    have hws32 : ∀ c ∈ preprocessText t, isWsPy c = true → c = 32 := by
      intro c hc hws
      rw [heq] at hc
      exact wsCollapseAux_ws32 _ false c (mem_punctCollapse hc) hws
    have hch_p3 : List.Chain' noTwoP3 (preprocessText t) := by
      rw [heq]
      exact punctCollapse_chain_p3 _
    have hhead : ∀ c, (preprocessText t).head? = some c → isWsPy c = false :=
      fun c hc => preprocess_head_not_ws h37 hc
    have hlast : ∀ c, (preprocessText t).getLast? = some c → isWsPy c = false :=
      fun c hc => preprocess_getLast_not_ws h37 hc
    conv_lhs => rw [preprocessText]
    rw [if_neg hu, lowerStr_eq_self hlower, pyStrip_id _ hhead hlast,
      show wsCollapse (preprocessText t) = preprocessText t from
        (wsCollapse_id _ hch_ws hws32).1,
      unquotePy_eq_self h37u, punctCollapse_id _ hch_p3]

/-!
Lemmas about the exclamation-run count: lowercasing, stripping and
whitespace collapsing preserve the number of maximal `[!?.]` runs
containing an exclamation mark, and punctuation collapsing emits at
most one exclamation mark per such run.
-/

theorem isPunct3_pyLower (c : Nat) : isPunct3 (pyLower c) = isPunct3 c := by
  simp only [pyLower]
  split_ifs with h
  · have hl : isPunct3 (c + 32) = false := by
      simp only [isPunct3, Bool.or_eq_false_iff, beq_eq_false_iff_ne]
      omega
    have hr : isPunct3 c = false := by
      simp only [isPunct3, Bool.or_eq_false_iff, beq_eq_false_iff_ne]
      omega
    rw [hl, hr]
  · rfl

theorem beq33_pyLower (c : Nat) : (pyLower c == 33) = (c == 33) := by
  by_cases h : c = 33
  · subst h; rfl
  · have h2 : pyLower c ≠ 33 := by
      unfold pyLower
      split_ifs <;> omega
    simp [h, h2]

theorem preprocess_eq {t : PyStr} (ht : t ≠ []) (h37 : 37 ∉ t) :
    preprocessText t = punctCollapse (wsCollapse (pyStrip (lowerStr t))) := by
  unfold preprocessText
  rw [if_neg ht, unquotePy_eq_self (no37_wsCollapse_pyStrip_lower h37)]

theorem runsAux_lowerStr : ∀ (l : PyStr) (st : Option Bool),
    runsBangAux st (lowerStr l) = runsBangAux st l := by
  intro l
  induction l with
  | nil => intro st; rfl
  | cons c rest ih =>
    intro st
    simp only [lowerStr, List.map_cons]
    simp only [runsBangAux]
    rw [isPunct3_pyLower, beq33_pyLower]
    cases hp : isPunct3 c
    · simp only [hp, Bool.false_eq_true, if_false]
      rw [show List.map pyLower rest = lowerStr rest from rfl, ih none]
    · simp only [hp, if_true]
      rw [show List.map pyLower rest = lowerStr rest from rfl, ih _]

theorem runsAux_wsCollapseAux :
    ∀ (l : PyStr) (st : Option Bool) (pw : Bool), (pw = true → st = none) →
      runsBangAux st (wsCollapseAux pw l) = runsBangAux st l := by
  intro l
  induction l with
  | nil => intro st pw _; rfl
  | cons c rest ih =>
    intro st pw hinv
    cases hc : isWsPy c
    · rw [wsCollapseAux, hc]
      simp only [Bool.false_eq_true, if_false]
      simp only [runsBangAux]
      cases hp : isPunct3 c
      · simp only [hp, Bool.false_eq_true, if_false]
        rw [ih none false (by simp)]
      · simp only [hp, if_true]
        rw [ih _ false (by simp)]
    · have hp : isPunct3 c = false := ws_not_p3 hc
      cases pw
      · rw [wsCollapseAux, hc]
        simp only [if_true, Bool.false_eq_true, if_false]
        simp only [runsBangAux]
        simp only [show isPunct3 32 = false from rfl, hp, Bool.false_eq_true,
          if_false]
        rw [ih none true (fun _ => rfl)]
      · have hst : st = none := hinv rfl
        subst hst
        rw [wsCollapseAux, hc]
        simp only [if_true]
        rw [ih none true (fun _ => rfl)]
        conv_rhs => rw [runsBangAux]
        simp [hp]

theorem runsAux_all_ws : ∀ (s : PyStr), (∀ c ∈ s, isWsPy c = true) →
    ∀ st, runsBangAux st s = runsBangAux st [] := by
  intro s
  induction s with
  | nil => intro _ _; rfl
  | cons w s' ih =>
    intro h st
    have hw : isWsPy w = true := h w (by simp)
    have hp : isPunct3 w = false := ws_not_p3 hw
    conv_lhs => rw [runsBangAux]
    simp only [hp, Bool.false_eq_true, if_false]
    rw [ih (fun c hc => h c (by simp [hc])) none]
    rw [show runsBangAux none ([] : PyStr) = 0 from rfl, Nat.add_zero]
    rfl

theorem runsAux_append_ws :
    ∀ (l s : PyStr), (∀ c ∈ s, isWsPy c = true) →
      ∀ st, runsBangAux st (l ++ s) = runsBangAux st l := by
  intro l s hs
  induction l with
  | nil =>
    intro st
    rw [List.nil_append]
    exact runsAux_all_ws s hs st
  | cons c rest ih =>
    intro st
    rw [List.cons_append]
    simp only [runsBangAux]
    cases hp : isPunct3 c
    · simp only [hp, Bool.false_eq_true, if_false]
      rw [ih none]
    · simp only [hp, if_true]
      rw [ih _]

theorem runsBang_dropWhile : ∀ (l : PyStr),
    runsBangAux none (l.dropWhile isWsPy) = runsBangAux none l := by
  intro l
  induction l with
  | nil => rfl
  | cons c rest ih =>
    cases hc : isWsPy c
    · rw [List.dropWhile_cons_of_neg (by simp [hc])]
    · rw [List.dropWhile_cons_of_pos hc, ih]
      have hp := ws_not_p3 hc
      conv_rhs => rw [runsBangAux]
      simp [hp]

theorem rdropWhile_append_rtakeWhile (p : Nat → Bool) (l : PyStr) :
    l.rdropWhile p ++ l.rtakeWhile p = l := by
  simp only [List.rdropWhile, List.rtakeWhile]
  rw [← List.reverse_append, List.takeWhile_append_dropWhile,
    List.reverse_reverse]

theorem runsBang_pyStrip (l : PyStr) : runsBang (pyStrip l) = runsBang l := by
  unfold runsBang pyStrip
  have hdecomp := rdropWhile_append_rtakeWhile isWsPy (l.dropWhile isWsPy)
  have hws : ∀ c ∈ (l.dropWhile isWsPy).rtakeWhile isWsPy, isWsPy c = true :=
    fun c hc => List.mem_rtakeWhile_imp hc
  calc runsBangAux none ((l.dropWhile isWsPy).rdropWhile isWsPy)
      = runsBangAux none ((l.dropWhile isWsPy).rdropWhile isWsPy ++
          (l.dropWhile isWsPy).rtakeWhile isWsPy) :=
        (runsAux_append_ws _ _ hws none).symm
    _ = runsBangAux none (l.dropWhile isWsPy) := by rw [hdecomp]
    _ = runsBangAux none l := runsBang_dropWhile l

theorem count_pc_le_runsAux : ∀ (l : PyStr), ∀ (st : Option Bool),
    (punctCollapse l).count 33 ≤ runsBangAux st l := by
  intro l
  induction l using punctCollapse.induct with
  | case1 => intro st; simp [punctCollapse]
  | case2 c =>
    intro st
    by_cases hc33 : c = 33
    · subst hc33
      simp [punctCollapse, runsBangAux, List.count_cons, isPunct3]
    · have : (punctCollapse [c]).count 33 = 0 := by
        simp [punctCollapse, List.count_cons, hc33]
      rw [this]
      exact Nat.zero_le _
  | case3 a b rest hab ih =>
    intro st
    have hpa : isPunct3 a = true := by
      rw [Bool.and_eq_true] at hab
      exact hab.1
    rw [punctCollapse, if_pos hab]
    rw [runsBangAux]
    simp only [hpa, if_true]
    exact ih _
  | case4 a b rest hab ih =>
    intro st
    rw [punctCollapse, if_neg hab]
    by_cases hpa : isPunct3 a = true
    · have hpb : isPunct3 b = false := by
        cases hpb : isPunct3 b
        · rfl
        · exact absurd (by rw [hpa, hpb]; rfl) hab
      -- right side: the run headed by `a` ends at `b`
      rw [runsBangAux]
      simp only [hpa, if_true]
      rw [runsBangAux]
      simp only [hpb, Bool.false_eq_true, if_false]
      -- left side: count of a :: punctCollapse (b :: rest)
      have hleft := ih none
      have hb0 : runsBangAux none (b :: rest) = runsBangAux none rest := by
        rw [runsBangAux]
        simp [hpb]
      rw [hb0] at hleft
      by_cases ha33 : a = 33
      · subst ha33
        simp only [List.count_cons, beq_self_eq_true, if_true]
        have hx : (st.getD false || true) = true := Bool.or_true _
        rw [hx, if_pos rfl]
        omega
      · simp only [List.count_cons, beq_iff_eq, ha33, if_false]
        split <;> omega
    · have hpa' : isPunct3 a = false := by
        cases h : isPunct3 a
        · rfl
        · exact absurd h hpa
      have ha33 : a ≠ 33 := by
        intro he
        subst he
        simp [isPunct3] at hpa'
      rw [runsBangAux]
      simp only [hpa', Bool.false_eq_true, if_false]
      simp only [List.count_cons, beq_iff_eq, ha33, if_false]
      have hleft := ih none
      split <;> omega

theorem exclam_le_runsBang {t : PyStr} (h37 : 37 ∉ t) :
    (preprocessText t).count 33 ≤ runsBang t := by
  by_cases ht : t = []
  · subst ht
    decide
  · rw [preprocess_eq ht h37]
    calc (punctCollapse (wsCollapse (pyStrip (lowerStr t)))).count 33
        ≤ runsBangAux none (wsCollapse (pyStrip (lowerStr t))) :=
          count_pc_le_runsAux _ none
      _ = runsBangAux none (pyStrip (lowerStr t)) := by
          unfold wsCollapse
          exact runsAux_wsCollapseAux _ none false (by simp)
      _ = runsBangAux none (lowerStr t) := runsBang_pyStrip (lowerStr t)
      _ = runsBangAux none t := runsAux_lowerStr t none

/-!
Claim theorems.
-/

/-- C1: for every text `t`, the risk score produced by scoring the
features extracted from the normalized form of `t` lies in the closed
interval `[0, 10]`, and the severity bands (critical `[7.5, 10]`, high
`[5, 7.5)`, medium `[3, 5)`, low `[0, 3)`) cover `[0, 10]` with no
gaps and no overlaps, the classifier assigning the unique matching
band. -/
theorem C1_score_range_and_band_partition :
    (∀ t f, featuresOf t = some f →
      0 ≤ calculateScore f ∧ calculateScore f ≤ 10) ∧
    (∀ s : ℝ, 0 ≤ s → s ≤ 10 →
      bandRange (classifyBand s) s ∧ ∀ b, bandRange b s → b = classifyBand s) := by
  constructor
  · intro t f _
    exact ⟨calculateScore_nonneg f, calculateScore_le_ten f⟩
  · intro s h0 h10
    exact ⟨classifyBand_mem_bandRange h0 h10, fun b hb => bandRange_unique b hb⟩

/-- Witness for C1 at the empty text and at score 8. -/
theorem C1_witness :
    featuresOf (ofStr (r"")) = some emptyRecord ∧
    (0 ≤ calculateScore emptyRecord ∧ calculateScore emptyRecord ≤ 10) ∧
    bandRange (classifyBand 8) 8 :=
  ⟨by with_unfolding_all rfl,
   C1_score_range_and_band_partition.1 (ofStr (r"")) emptyRecord
     (by with_unfolding_all rfl),
   (C1_score_range_and_band_partition.2 8 (by norm_num) (by norm_num)).1⟩

/-- C2: for every input consisting only of whitespace characters (the
empty input included), `detect` returns the error-shaped result with
status `error`, the fixed message and the timestamp, and never an
analysis result carrying a risk score; the short-circuit happens
before feature extraction or scoring run. -/
theorem C2_whitespace_input_yields_error (ts : Nat) (t : PyStr)
    (h : ∀ c ∈ t, isWsPy c = true) :
    detect ts t = some (Sum.inl
      { status := ofStr (r"error")
        message := ofStr (r"Please enter a message to analyze")
        timestamp := ts }) ∧
    ∀ a : Analysis, detect ts t ≠ some (Sum.inr a) := by
  have hcond : t = [] ∨ pyStrip t = [] := by
    right
    unfold pyStrip
    rw [List.dropWhile_eq_nil_iff.mpr h]
    simp [List.rdropWhile]
  constructor
  · unfold detect
    rw [if_pos hcond]
  · intro a hne
    unfold detect at hne
    rw [if_pos hcond] at hne
    simp at hne

/-- Witness for C2 at a three-space input. -/
theorem C2_witness :
    detect 0 (ofStr (r"   ")) = some (Sum.inl
      { status := ofStr (r"error")
        message := ofStr (r"Please enter a message to analyze")
        timestamp := 0 }) :=
  (C2_whitespace_input_yields_error 0 (ofStr (r"   ")) (by decide)).1

/-- C3: when at least two of the three conditions `suspiciousUrls > 0`,
`threatScore > 2`, `authScore > 2` hold, the risk calculator adds
exactly 1.0 to the compressed and rounded score and re-clamps at 10.0
(so the result never exceeds 10.0); with fewer than two conditions the
compressed and rounded score is returned unchanged. -/
theorem C3_penalty_bonus (f : FeatureRecord) :
    (2 ≤ penaltyCount f → calculateScore f = min 10 (preScore f + 1)) ∧
    (penaltyCount f < 2 → calculateScore f = preScore f) ∧
    calculateScore f ≤ 10 := by
  refine ⟨?_, ?_, calculateScore_le_ten f⟩
  · intro h
    unfold calculateScore
    rw [if_pos h]
  · intro h
    unfold calculateScore
    rw [if_neg (by omega)]

/-- Witness for C3 at a record satisfying two penalty conditions. -/
theorem C3_witness :
    2 ≤ penaltyCount penaltyRecord ∧
    calculateScore penaltyRecord = min 10 (preScore penaltyRecord + 1) :=
  ⟨by with_unfolding_all decide,
   (C3_penalty_bonus penaltyRecord).1 (by with_unfolding_all decide)⟩

/-- C6: raising `suspiciousUrls` from 0 to 1 with every other feature
held fixed never decreases the risk score. -/
theorem C6_suspicious_urls_monotone (f : FeatureRecord) :
    calculateScore { f with suspiciousUrls := 0 } ≤
      calculateScore { f with suspiciousUrls := 1 } := by
  have hbase : baseScore { f with suspiciousUrls := 0 } ≤
      baseScore { f with suspiciousUrls := 1 } := by
    unfold baseScore
    simp only []
    push_cast
    linarith
  have hpre : preScore { f with suspiciousUrls := 0 } ≤
      preScore { f with suspiciousUrls := 1 } := preScore_mono_base hbase
  have hcount : penaltyCount { f with suspiciousUrls := 1 } =
      penaltyCount { f with suspiciousUrls := 0 } + 1 := by
    unfold penaltyCount
    simp only []
    norm_num
    omega
  by_cases h0 : 2 ≤ penaltyCount { f with suspiciousUrls := 0 }
  · have h1 : 2 ≤ penaltyCount { f with suspiciousUrls := 1 } := by omega
    unfold calculateScore
    rw [if_pos h0, if_pos h1]
    exact min_le_min le_rfl (by linarith)
  · by_cases h1 : 2 ≤ penaltyCount { f with suspiciousUrls := 1 }
    · unfold calculateScore
      rw [if_neg h0, if_pos h1]
      exact le_min (preScore_le_ten _) (by linarith)
    · unfold calculateScore
      rw [if_neg h0, if_neg h1]
      exact hpre

/-- C9: a detect call on the banking example text produces severity
`critical`, and its feature record has `totalUrls = 1`,
`suspiciousUrls = 1` and `senseOfUrgency = 1`. -/
theorem C9_banking_example_critical :
    featuresOf bankText = some bankRecord ∧
    bankRecord.totalUrls = 1 ∧ bankRecord.suspiciousUrls = 1 ∧
    bankRecord.senseOfUrgency = 1 ∧
    detectFeatures 0 bankText = some bankRecord ∧
    detectSeverity 0 bankText = some Band.critical := by
  have hf : featuresOf bankText = some bankRecord := by with_unfolding_all rfl
  have hf' : extractFeatures (preprocessText bankText) = some bankRecord := hf
  have hbase : (13 : ℝ) ≤ baseScore bankRecord := by
    unfold baseScore
    simp only [bankRecord]
    push_cast
    nlinarith [sigScale_nonneg ((0 : ℝ)), sigScale_nonneg ((1 : ℝ) / 99),
      sigScale_nonneg ((5 : ℝ) / 99)]
  have h65 : (6.5 : ℝ) ≤ preScore bankRecord := by
    unfold preScore
    refine le_min (by norm_num) ?_
    have hL := logisticScale_ge_of_thirteen hbase
    have h1 : ((65 : ℤ) : ℝ) ≤ 10 * logisticScale (baseScore bankRecord) := by
      push_cast
      linarith
    have h2 := le_round1 h1
    calc (6.5 : ℝ) = ((65 : ℤ) : ℝ) / 10 := by norm_num
      _ ≤ _ := h2
  have hpc : 2 ≤ penaltyCount bankRecord := by with_unfolding_all decide
  have hscore : (7.5 : ℝ) ≤ calculateScore bankRecord := by
    unfold calculateScore
    rw [if_pos hpc]
    exact le_min (by norm_num) (by linarith)
  have hsev : classifyBand (calculateScore bankRecord) = Band.critical := by
    unfold classifyBand
    rw [if_pos hscore]
  have hne : ¬(bankText = [] ∨ pyStrip bankText = []) := by
    with_unfolding_all decide
  refine ⟨hf, by with_unfolding_all decide, by with_unfolding_all decide,
    by with_unfolding_all decide, ?_, ?_⟩
  · unfold detectFeatures detect
    rw [if_neg hne, hf']
    simp [resultFeatures]
  · unfold detectSeverity detect
    rw [if_neg hne, hf']
    simp [resultSeverity, hsev]

/-- C5 (amended): the `allCapsRatio` reported by a detect call is the
uppercase-letter fraction of the normalized text, not of the original
input; since normalization lowercases, the reported value is 0 for
every percent-free input. -/
theorem C5_caps_on_normalized (ts : Nat) (t : PyStr) (f : FeatureRecord)
    (h : detectFeatures ts t = some f) :
    f.capsFrac = capsFracOf (preprocessText t) ∧
    (37 ∉ t → f.capsFrac = 0) := by
  have hx := detectFeatures_some h
  have hfields := extractFeatures_fields hx
  refine ⟨hfields.1, fun h37 => ?_⟩
  rw [hfields.1]
  exact capsFracOf_eq_zero (preprocess_no_upper h37)

/-- C5 counterexample: the claim as stated says the reported ratio is
computed on the original input, which for input `ABC` is 1; the code
reports 0. -/
theorem C5_counterexample :
    detectFeatures 0 (ofStr (r"ABC")) = some emptyRecord ∧
    emptyRecord.capsFrac = 0 ∧
    capsFracOf (ofStr (r"ABC")) = 1 ∧
    ¬ emptyRecord.capsFrac = capsFracOf (ofStr (r"ABC")) := by
  have hdf : detectFeatures 0 (ofStr (r"ABC")) = some emptyRecord := by
    unfold detectFeatures detect
    rw [if_neg (by decide)]
    rw [show extractFeatures (preprocessText (ofStr (r"ABC"))) = some emptyRecord
      from by with_unfolding_all rfl]
    simp [resultFeatures]
  exact ⟨hdf, by with_unfolding_all rfl, by with_unfolding_all rfl,
    by with_unfolding_all decide⟩

/-- Witness for the amended C5 at input `ABC`. -/
theorem C5_witness :
    emptyRecord.capsFrac = capsFracOf (preprocessText (ofStr (r"ABC"))) ∧
    emptyRecord.capsFrac = 0 := by
  have hdf : detectFeatures 0 (ofStr (r"ABC")) = some emptyRecord := by
    unfold detectFeatures detect
    rw [if_neg (by decide)]
    rw [show extractFeatures (preprocessText (ofStr (r"ABC"))) = some emptyRecord
      from by with_unfolding_all rfl]
    simp [resultFeatures]
  have hthm := C5_caps_on_normalized 0 (ofStr (r"ABC")) emptyRecord hdf
  exact ⟨hthm.1, hthm.2 (by decide)⟩

/-- C7: code evaluation at the failing input `click http://[bad now`.
The parse failure of `http://[bad` (mismatched bracket in the netloc)
does degrade to the error marker inside `_analyze_url` (first
conjunct), but the aggregation loop of `extract_features` then raises
`KeyError` reading `is_shortener` from the degraded record, so
extraction aborts (`none`) and the exception escapes `detect` (last
conjunct), contrary to the claimed isolation. -/
theorem C7_url_parse_failure_aborts_extraction :
    analyzeUrl (ofStr (r"http://[bad")) =
      UrlAnalysis.failed (ofStr (r"http://[bad")) ∧
    extractUrls (ofStr (r"click http://[bad now")) = [ofStr (r"http://[bad")] ∧
    extractFeatures (ofStr (r"click http://[bad now")) = none ∧
    detect 0 (ofStr (r"click http://[bad now")) = none := by
  refine ⟨by decide, by decide, by with_unfolding_all rfl, ?_⟩
  unfold detect
  rw [if_neg (by decide)]
  rw [show extractFeatures (preprocessText (ofStr (r"click http://[bad now"))) = none
    from by with_unfolding_all rfl]

/-- C8: `extract_urls` on `Visit http://bit.ly/abc now` returns exactly
one match, `http://bit.ly/abc` (leading prose and the trailing word
excluded), and in general the final character of any returned URL is
never one of the stripped punctuation characters `.,;:()[]{}"'`. -/
theorem C8_extract_urls_bitly :
    extractUrls (ofStr (r"Visit http://bit.ly/abc now")) =
      [ofStr (r"http://bit.ly/abc")] ∧
    ∀ t u, u ∈ extractUrls t → ∀ h : u ≠ [], u.getLast h ∉ stripCodes := by
  constructor
  · decide
  · intro t u hu h
    obtain ⟨v, hv, huv⟩ := List.mem_map.mp hu
    subst huv
    intro hmem
    exact List.rdropWhile_last_not (l := v.dropWhile isStripCh)
      (p := isStripCh) h (by simpa [isStripCh] using hmem)

/-- C4 (amended): normalization is idempotent on every input containing
no percent sign.  (Percent-decoding runs after lowercasing and
whitespace collapsing, so it breaks idempotence on inputs with
percent-encoded sequences.) -/
theorem C4_normalize_idempotent_percent_free (t : PyStr) (h : 37 ∉ t) :
    preprocessText (preprocessText t) = preprocessText t :=
  preprocess_idem h

/-- C4 counterexample: `%2520` normalizes to `%20`, which a second
normalization percent-decodes further, to a single space. -/
theorem C4_counterexample :
    preprocessText (preprocessText (ofStr (r"%2520"))) ≠
      preprocessText (ofStr (r"%2520")) := by decide

/-- Witness for the amended C4 at a percent-free input. -/
theorem C4_witness :
    (37 ∉ ofStr (r"Hello!!!  WORLD")) ∧
    preprocessText (preprocessText (ofStr (r"Hello!!!  WORLD"))) =
      preprocessText (ofStr (r"Hello!!!  WORLD")) :=
  ⟨by decide, C4_normalize_idempotent_percent_free _ (by decide)⟩

/-- C10 (amended): the exclamation_count reported by detect is the
number of exclamation marks in the normalized text, in which every run
of two or more consecutive characters from the class `[!?.]` has been
collapsed to one character, so the input `Hello!!!` yields 1, not 3;
and for every input containing no percent sign, the count is bounded
above by the number of maximal punctuation runs of the original input
that contain an exclamation mark.  (Percent-decoding can create new
exclamation marks, hence the percent-free restriction on the bound.) -/
theorem C10_exclamation_count (ts : Nat) (t : PyStr) (f : FeatureRecord)
    (h : detectFeatures ts t = some f) :
    f.exclamCount = (preprocessText t).count 33 ∧
    (t = ofStr (r"Hello!!!") → f.exclamCount = 1) ∧
    (37 ∉ t → f.exclamCount ≤ runsBang t) := by
  have hx := detectFeatures_some h
  have hfields := extractFeatures_fields hx
  refine ⟨hfields.2, ?_, ?_⟩
  · intro ht
    rw [hfields.2, ht]
    with_unfolding_all rfl
  · intro h37
    rw [hfields.2]
    exact exclam_le_runsBang h37

/-- C10 counterexample: the input `%21` percent-decodes to a single
exclamation mark, so the reported count is 1 while the original input
contains no punctuation run with an exclamation mark at all. -/
theorem C10_counterexample :
    detectFeatures 0 (ofStr (r"%21")) = some percentBangRecord ∧
    percentBangRecord.exclamCount = 1 ∧
    runsBang (ofStr (r"%21")) = 0 ∧
    ¬ percentBangRecord.exclamCount ≤ runsBang (ofStr (r"%21")) := by
  have hdf : detectFeatures 0 (ofStr (r"%21")) = some percentBangRecord := by
    unfold detectFeatures detect
    rw [if_neg (by decide)]
    rw [show extractFeatures (preprocessText (ofStr (r"%21"))) =
      some percentBangRecord from by with_unfolding_all rfl]
    simp [resultFeatures]
  exact ⟨hdf, rfl, by decide, by decide⟩

/-- Witness for the amended C10 at input `Hello!!!`. -/
theorem C10_witness :
    helloRecord.exclamCount = (preprocessText (ofStr (r"Hello!!!"))).count 33 ∧
    helloRecord.exclamCount = 1 ∧
    helloRecord.exclamCount ≤ runsBang (ofStr (r"Hello!!!")) := by
  have hdf : detectFeatures 0 (ofStr (r"Hello!!!")) = some helloRecord := by
    unfold detectFeatures detect
    rw [if_neg (by decide)]
    rw [show extractFeatures (preprocessText (ofStr (r"Hello!!!"))) =
      some helloRecord from by with_unfolding_all rfl]
    simp [resultFeatures]
  have hthm := C10_exclamation_count 0 (ofStr (r"Hello!!!")) helloRecord hdf
  exact ⟨hthm.1, hthm.2.1 rfl, hthm.2.2 (by decide)⟩

/-- Witness for C8 at the concrete text and its extracted URL. -/
theorem C8_witness :
    (ofStr (r"http://bit.ly/abc")) ∈
      extractUrls (ofStr (r"Visit http://bit.ly/abc now")) ∧
    (ofStr (r"http://bit.ly/abc")).getLast (by decide) ∉ stripCodes :=
  ⟨by decide,
   C8_extract_urls_bitly.2 (ofStr (r"Visit http://bit.ly/abc now"))
     (ofStr (r"http://bit.ly/abc")) (by decide) (by decide)⟩

end PhishSense
